import Mathlib

/-!
Verification of the PKT (Probabilistic Knowledge Transfer) training script
train_pkt.py. The development shallowly embeds the three parts of the script
that carry algorithmic content: the learning-rate schedule adjust_lr
(lines 243-252), the training loop driver of main/train/test with its frozen
teacher network (lines 43-241), and the loss function
pkt_cosine_similarity_loss (lines 257-282). Tensor arithmetic is embedded
over the real numbers; scheduler values are also instantiated at the
rationals, where the float literal 0.1 of the script is the exact value 1/10.
-/

namespace PKT

/-! ## Learning-rate schedule: adjust_lr, train_pkt.py lines 243-252 -/

/-- Python list indexing semantics for l[i] with an integer index: a
nonnegative index is bounds-checked, a negative index wraps around once from
the end of the list, and any access still out of range raises IndexError,
modelled here as none. -/
def pyIndex {α : Type*} (l : List α) (i : ℤ) : Option α :=
  if 0 ≤ i then l[i.toNat]?
  else if 0 ≤ i + l.length then l[(i + l.length).toNat]?
  else none

/-- The schedule list built inside adjust_lr (lines 244-247): the base rate
repeated 100 times, then the base rate times scale repeated 50 times, then
the base rate times scale squared repeated 50 times, with scale = 0.1. -/
def lr_list {α : Type*} [Field α] (lr : α) : List α :=
  List.replicate 100 lr ++ List.replicate 50 (lr * (1/10)) ++
    List.replicate 50 (lr * (1/10) * (1/10))

/-- Embedding of adjust_lr (lines 243-252): read lr_list[epoch-1] with Python
indexing and write the value into every optimizer parameter group; none
models the uncaught IndexError aborting the run. -/
def adjust_lr {α : Type*} [Field α] (param_groups : List α) (lr : α) (epoch : ℕ) :
    Option (List α) :=
  (pyIndex (lr_list lr) ((epoch : ℤ) - 1)).map fun v => param_groups.map fun _ => v

theorem lr_list_length {α : Type*} [Field α] (lr : α) : (lr_list lr).length = 200 := by
  rw [lr_list, List.length_append, List.length_append, List.length_replicate,
    List.length_replicate, List.length_replicate]

theorem lr_list_getElem {α : Type*} [Field α] (lr : α) (m : ℕ) (hm : m < 200) :
    (lr_list lr)[m]? =
      some (if m < 100 then lr
            else if m < 150 then lr * (1/10) else lr * (1/10) * (1/10)) := by
  simp only [lr_list, List.getElem?_append, List.length_replicate,
    List.getElem?_replicate, List.length_append]
  split_ifs <;> first | rfl | omega

/-- C7: for every epoch from 1 to 200 and base rate lr, adjust_lr sets the
learning rate of every optimizer parameter group to lr for epochs 1-100, to
lr * 0.1 for epochs 101-150, and to lr * 0.01 for epochs 151-200. The
witness below instantiates the concrete cases of the claim: base rate 0.1 at
epochs 50, 150 and 199 yields 0.1, 0.01 and 0.001. -/
theorem adjust_lr_in_schedule (lr : ℚ) (groups : List ℚ) (epoch : ℕ)
    (h1 : 1 ≤ epoch) (h2 : epoch ≤ 200) :
    adjust_lr groups lr epoch =
      some (groups.map fun _ =>
        if epoch ≤ 100 then lr
        else if epoch ≤ 150 then lr * (1/10) else lr * (1/10) * (1/10)) := by
  unfold adjust_lr pyIndex
  rw [if_pos (by omega : (0:ℤ) ≤ (epoch : ℤ) - 1)]
  have htn : ((epoch : ℤ) - 1).toNat = epoch - 1 := by omega
  rw [htn, lr_list_getElem lr (epoch - 1) (by omega)]
  have e1 : epoch - 1 < 100 ↔ epoch ≤ 100 := by omega
  have e2 : epoch - 1 < 150 ↔ epoch ≤ 150 := by omega
  simp only [e1, e2]
  rfl

/-- Witness for C7 at the concrete instances named by the claim: base rate
0.1, epochs 50, 150 and 199. -/
theorem adjust_lr_in_schedule_witness :
    adjust_lr [(0:ℚ)] (1/10) 50 = some [1/10] ∧
    adjust_lr [(0:ℚ)] (1/10) 150 = some [1/100] ∧
    adjust_lr [(0:ℚ)] (1/10) 199 = some [1/1000] :=
  ⟨(adjust_lr_in_schedule (1/10) [0] 50 (by decide) (by decide)).trans (by norm_num),
   (adjust_lr_in_schedule (1/10) [0] 150 (by decide) (by decide)).trans (by norm_num),
   (adjust_lr_in_schedule (1/10) [0] 199 (by decide) (by decide)).trans (by norm_num)⟩

/-- C8: for every epoch beyond the 200 scheduled epochs, adjust_lr hits the
bounds check of the list access lr_list[epoch-1] and aborts with an
IndexError (modelled as none): a fatal error, not a silent wraparound or a
clamp to the last segment. -/
theorem adjust_lr_out_of_range (lr : ℚ) (groups : List ℚ) (epoch : ℕ)
    (h : 200 < epoch) :
    adjust_lr groups lr epoch = none := by
  unfold adjust_lr pyIndex
  rw [if_pos (by omega : (0:ℤ) ≤ (epoch : ℤ) - 1)]
  have hlen : (lr_list lr).length ≤ ((epoch : ℤ) - 1).toNat := by
    rw [lr_list_length]; omega
  rw [List.getElem?_eq_none hlen]
  rfl

/-- Witness for C8 at epoch 201, the first epoch past the schedule. -/
theorem adjust_lr_out_of_range_witness : adjust_lr [(0:ℚ)] (1/10) 201 = none :=
  adjust_lr_out_of_range (1/10) [0] 201 (by decide)

/-! ## Training loop driver: main, train, test (train_pkt.py lines 43-241) -/

/-- Parameter state of one training run: the student parameters, the frozen
teacher parameters, and the SGD momentum buffers of the student optimizer.
The teacher parameters are the ones set to requires_grad = False in main
(lines 62-64); the optimizer built on line 68 holds only snet.parameters(). -/
structure TrainState (s t : ℕ) where
  snet : Fin s → ℝ
  tnet : Fin t → ℝ
  momentum : Fin s → ℝ

noncomputable section

/-- One SGD update with momentum, weight decay and the Nesterov rule, as the
optimizer is configured in main (lines 68-72): returns the new student
parameters and the new momentum buffer. -/
def sgdStep {s : ℕ} (lr mu wd : ℝ) (p buf g : Fin s → ℝ) :
    (Fin s → ℝ) × (Fin s → ℝ) :=
  let d : Fin s → ℝ := fun i => g i + wd * p i
  let buf2 : Fin s → ℝ := fun i => mu * buf i + d i
  (fun i => p i - lr * (d i + mu * buf2 i), buf2)

/-- One iteration of the batch loop of train (lines 170-195). The gradient of
the composite loss with respect to the student parameters is produced by the
backpropagation oracle gradFn; the teacher parameters enter it only as
read-only inputs, because they carry requires_grad = False and the teacher
output is detached on line 181, so no gradient with respect to them exists.
The optimizer step writes the student parameters and momentum buffers only. -/
def trainBatch {s t : ℕ} {β : Type*} (lr mu wd : ℝ)
    (gradFn : (Fin s → ℝ) → (Fin t → ℝ) → β → Fin s → ℝ)
    (st : TrainState s t) (b : β) : TrainState s t :=
  let g := gradFn st.snet st.tnet b
  let pb := sgdStep lr mu wd st.snet st.momentum g
  { snet := pb.1, tnet := st.tnet, momentum := pb.2 }

/-- The batch loop of train (lines 154-206) over the batches of one epoch. -/
def trainEpoch {s t : ℕ} {β : Type*} (lr mu wd : ℝ)
    (gradFn : (Fin s → ℝ) → (Fin t → ℝ) → β → Fin s → ℝ)
    (batches : List β) (st : TrainState s t) : TrainState s t :=
  batches.foldl (trainBatch lr mu wd gradFn) st

/-- The test pass (lines 208-241) runs forward passes under no_grad and
updates only local metric accumulators: it reads but never writes the
network parameters, so on the parameter state it is the identity. -/
def testEpoch {s t : ℕ} (st : TrainState s t) : TrainState s t := st

/-- One iteration of the epoch loop of main (lines 119-152): adjust_lr picks
the learning rate of the epoch (none aborts the run with the IndexError of
the schedule), then one training pass and one test pass run. -/
def runEpoch {s t : ℕ} {β : Type*} (baseLr mu wd : ℝ)
    (gradFn : (Fin s → ℝ) → (Fin t → ℝ) → β → Fin s → ℝ)
    (batches : List β) (epoch : ℕ) (st : TrainState s t) :
    Option (TrainState s t) :=
  match pyIndex (lr_list baseLr) ((epoch : ℤ) - 1) with
  | none => none
  | some lr => some (testEpoch (trainEpoch lr mu wd gradFn batches st))

/-- The epoch loop of main (line 119): epochs 1, 2, ..., epochs in order. -/
def runTraining {s t : ℕ} {β : Type*} (baseLr mu wd : ℝ)
    (gradFn : (Fin s → ℝ) → (Fin t → ℝ) → β → Fin s → ℝ)
    (batches : List β) (epochs : ℕ) (st : TrainState s t) :
    Option (TrainState s t) :=
  (List.range' 1 epochs).foldlM
    (fun st1 epoch => runEpoch baseLr mu wd gradFn batches epoch st1) st

theorem trainEpoch_tnet {s t : ℕ} {β : Type*} (lr mu wd : ℝ)
    (gradFn : (Fin s → ℝ) → (Fin t → ℝ) → β → Fin s → ℝ)
    (batches : List β) (st : TrainState s t) :
    (trainEpoch lr mu wd gradFn batches st).tnet = st.tnet := by
  induction batches generalizing st with
  | nil => rfl
  | cons b l ih =>
      simpa [trainEpoch, List.foldl_cons] using ih (trainBatch lr mu wd gradFn st b)

theorem foldEpochs_tnet {s t : ℕ} {β : Type*} (baseLr mu wd : ℝ)
    (gradFn : (Fin s → ℝ) → (Fin t → ℝ) → β → Fin s → ℝ)
    (batches : List β) (l : List ℕ) :
    ∀ (st st2 : TrainState s t),
      l.foldlM (fun st1 epoch => runEpoch baseLr mu wd gradFn batches epoch st1) st
        = some st2 → st2.tnet = st.tnet := by
  induction l with
  | nil =>
      intro st st2 h
      simp only [List.foldlM_nil] at h
      cases h
      rfl
  | cons e l ih =>
      intro st st2 h
      simp only [List.foldlM_cons] at h
      revert h
      unfold runEpoch
      cases pyIndex (lr_list baseLr) ((e : ℤ) - 1) with
      | none => intro h; cases h
      | some lr =>
          intro h
          have h2 := ih (testEpoch (trainEpoch lr mu wd gradFn batches st)) st2 h
          rw [h2]
          exact trainEpoch_tnet lr mu wd gradFn batches st

/-- C6: across the entire run — every training batch of every epoch and every
evaluation pass — the teacher parameters are never written: whenever the run
completes, the teacher component of the final state is exactly the teacher
component of the initial state, for every backpropagation oracle, batch list,
epoch count and hyperparameter choice. Only the student parameters and their
momentum buffers change. -/
theorem teacher_never_mutated {s t : ℕ} {β : Type*} (baseLr mu wd : ℝ)
    (gradFn : (Fin s → ℝ) → (Fin t → ℝ) → β → Fin s → ℝ)
    (batches : List β) (epochs : ℕ) (st : TrainState s t) :
    (runTraining baseLr mu wd gradFn batches epochs st).elim True
      (fun st2 => st2.tnet = st.tnet) := by
  unfold runTraining
  cases h : (List.range' 1 epochs).foldlM
      (fun st1 epoch => runEpoch baseLr mu wd gradFn batches epoch st1) st with
  | none => exact trivial
  | some st2 => exact foldEpochs_tnet baseLr mu wd gradFn batches _ st st2 h

end

/-! ## PKT cosine similarity loss (lines 257-282): value semantics -/

/-- Matrices of reals indexed by Fin types, the value model of a torch
tensor of shape (n, m). -/
abbrev Mat (n m : ℕ) : Type := Matrix (Fin n) (Fin m) ℝ

noncomputable section

/-- The in-place NaN fix of lines 261 and 265, output[output != output] = 0,
read on one entry: an entry that is not equal to itself (a NaN) becomes 0 and
every other entry is kept. Over the reals every value equals itself; this
matches the fact that with eps > 0 the division of line 260 is total, so no
NaN can arise in the real model. -/
def nanToZero (x : ℝ) : ℝ := if x = x then x else 0

theorem nanToZero_eq (x : ℝ) : nanToZero x = x := if_pos rfl

/-- torch.mean over an (n, m) tensor: the flat arithmetic mean, the sum of
every entry divided by the element count of the tensor. -/
def torchMean {n m : ℕ} (A : Mat n m) : ℝ :=
  (∑ i, ∑ j, A i j) / ((Fintype.card (Fin n) : ℝ) * (Fintype.card (Fin m) : ℝ))

/-- Shallow embedding of pkt_cosine_similarity_loss (lines 257-282), line by
line: the per-row Euclidean norms (lines 259 and 263), the division by
(norm + eps) with the in-place NaN fix (lines 260-261 and 264-265), the
cosine matrices as each normalized batch times its own transpose (lines
268-269), the affine rescale (lines 272-273), the unguarded row
normalization (lines 276-277), and the flat mean of the elementwise
divergence (line 280). -/
def pkt_cosine_similarity_loss {n ds dt : ℕ} (output_s : Mat n ds)
    (output_t : Mat n dt) (eps : ℝ) : ℝ :=
  let output_s_norm : Fin n → ℝ := fun i => Real.sqrt (∑ j, output_s i j ^ 2)
  let output_s2 : Mat n ds :=
    Matrix.of fun i j => nanToZero (output_s i j / (output_s_norm i + eps))
  let output_t_norm : Fin n → ℝ := fun i => Real.sqrt (∑ j, output_t i j ^ 2)
  let output_t2 : Mat n dt :=
    Matrix.of fun i j => nanToZero (output_t i j / (output_t_norm i + eps))
  let output_s_cos_sim : Mat n n := Matrix.of fun i k => ∑ j, output_s2 i j * output_s2 k j
  let output_t_cos_sim : Mat n n := Matrix.of fun i k => ∑ j, output_t2 i j * output_t2 k j
  let output_s_cos_sim2 : Mat n n := Matrix.of fun i k => (output_s_cos_sim i k + 1) / 2
  let output_t_cos_sim2 : Mat n n := Matrix.of fun i k => (output_t_cos_sim i k + 1) / 2
  let output_s_cond_prob : Mat n n :=
    Matrix.of fun i k => output_s_cos_sim2 i k / ∑ m, output_s_cos_sim2 i m
  let output_t_cond_prob : Mat n n :=
    Matrix.of fun i k => output_t_cos_sim2 i k / ∑ m, output_t_cos_sim2 i m
  torchMean (Matrix.of fun i k => output_t_cond_prob i k *
    Real.log ((output_t_cond_prob i k + eps) / (output_s_cond_prob i k + eps)))

/-- The Similarity-Distribution Transform of one embedding batch: lines
259-261, 268, 272 and 276 of the source applied to a single batch. -/
def simTransform {n d : ℕ} (eps : ℝ) (A : Mat n d) : Mat n n :=
  let nrm : Fin n → ℝ := fun i => Real.sqrt (∑ j, A i j ^ 2)
  let B : Mat n d := Matrix.of fun i j => nanToZero (A i j / (nrm i + eps))
  let C : Mat n n := Matrix.of fun i k => ∑ j, B i j * B k j
  let D : Mat n n := Matrix.of fun i k => (C i k + 1) / 2
  Matrix.of fun i k => D i k / ∑ m, D i m

/-- The Distribution-Divergence Estimator of line 280: the flat torch.mean of
P_t * log((P_t + eps) / (P_s + eps)), the teacher matrix first. -/
def divergenceEstimator {n : ℕ} (eps : ℝ) (Pt Ps : Mat n n) : ℝ :=
  torchMean (Matrix.of fun i k => Pt i k * Real.log ((Pt i k + eps) / (Ps i k + eps)))

/-- Decomposition of the source function into the two spec components: the
loss is the divergence estimator applied to the transformed teacher batch
(first operand) and the transformed student batch (second operand). -/
theorem pkt_loss_decomposition {n ds dt : ℕ} (output_s : Mat n ds)
    (output_t : Mat n dt) (eps : ℝ) :
    pkt_cosine_similarity_loss output_s output_t eps =
      divergenceEstimator eps (simTransform eps output_t) (simTransform eps output_s) :=
  rfl

/-- Step 1 of the claimed transform: the Euclidean norm of each row. -/
def specRowNorm {n d : ℕ} (A : Mat n d) (i : Fin n) : ℝ :=
  Real.sqrt (∑ j, A i j ^ 2)

/-- Step 2 of the claimed transform: divide each row by (its norm + eps) and
replace any resulting NaN entry with 0. -/
def specNormalize {n d : ℕ} (eps : ℝ) (A : Mat n d) : Mat n d :=
  Matrix.of fun i j => nanToZero (A i j / (specRowNorm A i + eps))

/-- Step 3 of the claimed transform: the pairwise cosine matrix, the
normalized batch times its own transpose. -/
def specCosine {n d : ℕ} (B : Mat n d) : Mat n n := B * B.transpose

/-- Step 4 of the claimed transform: rescale every entry via (x + 1) / 2. -/
def specRescale {n : ℕ} (M : Mat n n) : Mat n n :=
  Matrix.of fun i k => (M i k + 1) / 2

/-- Step 5 of the claimed transform: divide each row by its own row sum,
with no eps added at this division. -/
def specRowStoch {n : ℕ} (M : Mat n n) : Mat n n :=
  Matrix.of fun i k => M i k / ∑ m, M i m

/-- The five steps claimed by C1, composed in order. -/
def specTransform {n d : ℕ} (eps : ℝ) (A : Mat n d) : Mat n n :=
  specRowStoch (specRescale (specCosine (specNormalize eps A)))

theorem simTransform_eq_spec {n d : ℕ} (eps : ℝ) (A : Mat n d) :
    simTransform eps A = specTransform eps A := by
  ext i k
  simp only [simTransform, specTransform, specRowStoch, specRescale, specCosine,
    specNormalize, specRowNorm, Matrix.of_apply, Matrix.mul_apply,
    Matrix.transpose_apply]

/-- C1: with eps = 1e-5 the Similarity-Distribution Transform performs
exactly the claimed steps in order — per-row Euclidean norms, division by
(norm + eps) with NaN entries forced to 0, the pairwise cosine matrix as the
normalized batch times its own transpose, the rescale (x + 1) / 2, and the
row division by the own row sum with no eps — producing the conditional
probability matrix: the embedded source transform equals the composition of
the five claimed step functions. -/
theorem sdt_five_steps {n d : ℕ} (A : Mat n d) :
    simTransform (1e-5) A = specTransform (1e-5) A :=
  simTransform_eq_spec (1e-5) A

/-- C2: the Distribution-Divergence Estimator returns the flat arithmetic
mean over all N * N entries of P_t * log((P_t + eps) / (P_s + eps)) — the
total sum over every matrix element divided by N * N, not a mean of per-row
divergences (which would divide by N). -/
theorem divergence_flat_mean {n : ℕ} (Pt Ps : Mat n n) :
    divergenceEstimator (1e-5) Pt Ps =
      (∑ i, ∑ k, Pt i k * Real.log ((Pt i k + 1e-5) / (Ps i k + 1e-5))) /
        ((n : ℝ) * (n : ℝ)) := by
  simp [divergenceEstimator, torchMean]

/-- C4: for every embedding batch with an all-zero row, after step 2 the
corresponding normalized row is identically zero. Over the reals the
division by (norm + eps) is total and 0 / (0 + eps) = 0, and the NaN fix
keeps the zeros, so no undefined entry survives in that row, independently
of the later unguarded row-sum division. -/
theorem zero_row_normalizes_to_zero {n d : ℕ} (A : Mat n d) (i : Fin n)
    (h : ∀ j, A i j = 0) : ∀ j, specNormalize (1e-5) A i j = 0 := by
  intro j
  simp [specNormalize, nanToZero_eq, h j]

/-- Witness for C4: the 1 x 1 zero batch normalizes to the zero row. -/
theorem zero_row_normalizes_to_zero_witness :
    specNormalize (1e-5) (Matrix.of fun _ _ => (0:ℝ) : Mat 1 1) 0 0 = 0 :=
  zero_row_normalizes_to_zero (Matrix.of fun _ _ => (0:ℝ)) 0 (fun _ => rfl) 0

/-- C5: when the teacher and student probability matrices are identical the
estimator returns exactly 0: every ratio (P + eps) / (P + eps) is 1 (and in
a degenerate entry with P + eps = 0 the real quotient is 0), and in both
cases the logarithm vanishes, so the flat mean of zeros is 0. -/
theorem divergence_identical_zero {n : ℕ} (Pt Ps : Mat n n) (h : Pt = Ps) :
    divergenceEstimator (1e-5) Pt Ps = 0 := by
  subst h
  unfold divergenceEstimator torchMean
  have hz : ∀ i k : Fin n,
      Pt i k * Real.log ((Pt i k + 1e-5) / (Pt i k + 1e-5)) = 0 := by
    intro i k
    rcases eq_or_ne (Pt i k + 1e-5) 0 with h0 | h0
    · rw [h0]; simp
    · rw [div_self h0, Real.log_one, mul_zero]
  simp only [Matrix.of_apply, hz]
  simp

/-- Witness for C5: the constant 1/2 matrix compared with itself. -/
theorem divergence_identical_zero_witness :
    divergenceEstimator (1e-5) (Matrix.of fun _ _ => (1/2 : ℝ) : Mat 2 2)
      (Matrix.of fun _ _ => (1/2 : ℝ)) = 0 :=
  divergence_identical_zero (Matrix.of fun _ _ => (1/2 : ℝ))
    (Matrix.of fun _ _ => (1/2 : ℝ)) rfl

/-! ## Row sums at the final normalization step (claims C10 and C3) -/

theorem specNormalize_apply {n d : ℕ} (eps : ℝ) (A : Mat n d) (i : Fin n)
    (j : Fin d) : specNormalize eps A i j = A i j / (specRowNorm A i + eps) := by
  simp [specNormalize, nanToZero_eq]

theorem specRowNorm_nonneg {n d : ℕ} (A : Mat n d) (i : Fin n) :
    0 ≤ specRowNorm A i :=
  Real.sqrt_nonneg _

theorem normalized_sq_sum_le_one {n d : ℕ} {eps : ℝ} (heps : 0 < eps)
    (A : Mat n d) (i : Fin n) : ∑ j, specNormalize eps A i j ^ 2 ≤ 1 := by
  have hS : (0:ℝ) ≤ ∑ j, A i j ^ 2 := Finset.sum_nonneg fun j _ => sq_nonneg _
  have hc : 0 < specRowNorm A i + eps :=
    add_pos_of_nonneg_of_pos (specRowNorm_nonneg A i) heps
  have hrw : ∑ j, specNormalize eps A i j ^ 2
      = (∑ j, A i j ^ 2) / (specRowNorm A i + eps) ^ 2 := by
    rw [Finset.sum_div]
    refine Finset.sum_congr rfl fun j _ => ?_
    rw [specNormalize_apply, div_pow]
  rw [hrw, div_le_one (by positivity)]
  calc ∑ j, A i j ^ 2 = specRowNorm A i ^ 2 := (Real.sq_sqrt hS).symm
    _ ≤ (specRowNorm A i + eps) ^ 2 := by nlinarith [specRowNorm_nonneg A i]

theorem cosine_abs_le_one {n d : ℕ} {eps : ℝ} (heps : 0 < eps) (A : Mat n d)
    (i k : Fin n) :
    |∑ j, specNormalize eps A i j * specNormalize eps A k j| ≤ 1 := by
  have hcs := Finset.sum_mul_sq_le_sq_mul_sq Finset.univ
    (fun j => specNormalize eps A i j) (fun j => specNormalize eps A k j)
  have h1 := normalized_sq_sum_le_one heps A i
  have h2 := normalized_sq_sum_le_one heps A k
  have hg1 : (0:ℝ) ≤ ∑ j, specNormalize eps A i j ^ 2 :=
    Finset.sum_nonneg fun j _ => sq_nonneg _
  have hg2 : (0:ℝ) ≤ ∑ j, specNormalize eps A k j ^ 2 :=
    Finset.sum_nonneg fun j _ => sq_nonneg _
  refine (sq_le_one_iff_abs_le_one _).mp ?_
  calc (∑ j, specNormalize eps A i j * specNormalize eps A k j) ^ 2
      ≤ (∑ j, specNormalize eps A i j ^ 2) * ∑ j, specNormalize eps A k j ^ 2 := hcs
    _ ≤ 1 := by nlinarith

theorem rescaled_entry_nonneg {n d : ℕ} {eps : ℝ} (heps : 0 < eps)
    (A : Mat n d) (i k : Fin n) :
    0 ≤ specRescale (specCosine (specNormalize eps A)) i k := by
  have h := neg_le_of_abs_le (cosine_abs_le_one heps A i k)
  simp only [specRescale, specCosine, Matrix.of_apply, Matrix.mul_apply,
    Matrix.transpose_apply]
  linarith

theorem rescaled_diag_ge_half {n d : ℕ} (eps : ℝ) (A : Mat n d) (i : Fin n) :
    1/2 ≤ specRescale (specCosine (specNormalize eps A)) i i := by
  have h : (0:ℝ) ≤ ∑ j, specNormalize eps A i j * specNormalize eps A i j :=
    Finset.sum_nonneg fun j _ => mul_self_nonneg _
  simp only [specRescale, specCosine, Matrix.of_apply, Matrix.mul_apply,
    Matrix.transpose_apply]
  linarith

theorem rescaled_row_sum_ge_half {n d : ℕ} (eps : ℝ) (heps : 0 < eps)
    (A : Mat n d) (i : Fin n) :
    1/2 ≤ ∑ k, specRescale (specCosine (specNormalize eps A)) i k := by
  have hd := rescaled_diag_ge_half eps A i
  have hs : specRescale (specCosine (specNormalize eps A)) i i
      ≤ ∑ k, specRescale (specCosine (specNormalize eps A)) i k :=
    Finset.single_le_sum (fun k _ => rescaled_entry_nonneg heps A i k)
      (Finset.mem_univ i)
  linarith

/-- C10: in exact arithmetic, for every input batch, every row sum computed
at the final normalization step of pkt_cosine_similarity_loss is at least
1/2 and hence nonzero: each normalized row has squared norm at most 1 thanks
to the eps in the norm denominator, so by the Cauchy-Schwarz inequality
every rescaled cosine entry (x + 1) / 2 is nonnegative and the diagonal
entry is at least 1/2; the unguarded row division therefore never divides by
zero and the zero-sum-row pathology cannot arise. -/
theorem final_row_sum_positive {n d : ℕ} (A : Mat n d) (i : Fin n) :
    1/2 ≤ ∑ k, specRescale (specCosine (specNormalize (1e-5) A)) i k ∧
      ∑ k, specRescale (specCosine (specNormalize (1e-5) A)) i k ≠ 0 := by
  have h := rescaled_row_sum_ge_half (1e-5) (by norm_num) A i
  exact ⟨h, by linarith⟩

/-- C3: for every embedding batch with no all-zero rows, the transform
output is row-stochastic: every row sums to exactly 1 in the real model
(the row sum at the final division is provably nonzero, so the division by
it makes the row sum to 1). -/
theorem transform_row_stochastic {n d : ℕ} (A : Mat n d)
    (_hA : ∀ i2 : Fin n, ¬ ∀ j, A i2 j = 0) (i : Fin n) :
    ∑ k, simTransform (1e-5) A i k = 1 := by
  have hge := rescaled_row_sum_ge_half (1e-5) (by norm_num) A i
  have hne : (∑ m, specRescale (specCosine (specNormalize (1e-5) A)) i m) ≠ 0 := by
    linarith
  have happ : ∀ k, simTransform (1e-5) A i k
      = specRescale (specCosine (specNormalize (1e-5) A)) i k
        / ∑ m, specRescale (specCosine (specNormalize (1e-5) A)) i m := by
    intro k
    rw [simTransform_eq_spec]
    simp [specTransform, specRowStoch]
  rw [Finset.sum_congr rfl fun k _ => happ k, ← Finset.sum_div, div_self hne]

/-- Witness for C3: the 1 x 1 batch with single entry 1, whose only row is
not all zero, yields the row sum 1. -/
theorem transform_row_stochastic_witness :
    ∑ k, simTransform (1e-5) (Matrix.of fun _ _ => (1:ℝ) : Mat 1 1) 0 k = 1 :=
  transform_row_stochastic (Matrix.of fun _ _ => (1:ℝ))
    (fun _ h => one_ne_zero (h 0)) 0

/-! ## Aliasing model of pkt_cosine_similarity_loss (claim C9) -/

/-- Untyped tensor of the heap model: entries indexed by two naturals. -/
def UTensor : Type := ℕ → ℕ → ℝ

/-- Heap of tensor objects: a store from references to tensors plus the next
fresh reference. Every torch operation in the function body allocates its
result as a new object; only the subscript assignments of lines 261 and 265
write to an existing reference. -/
structure Heap where
  mem : ℕ → UTensor
  next : ℕ

/-- Allocation of a fresh tensor object: the extended heap and the reference
of the new object. -/
def Heap.alloc (h : Heap) (v : UTensor) : Heap × ℕ :=
  (⟨fun r => if r = h.next then v else h.mem r, h.next + 1⟩, h.next)

/-- In-place write to an existing reference: a subscript assignment. -/
def Heap.store (h : Heap) (r : ℕ) (v : UTensor) : Heap :=
  ⟨fun r2 => if r2 = r then v else h.mem r2, h.next⟩

/-- torch.sqrt(torch.sum(x ** 2, dim=1, keepdim=True)) on an (n, d) tensor:
the column of row norms, kept constant along the second index. -/
def rowNormT (d : ℕ) (A : UTensor) : UTensor :=
  fun i _ => Real.sqrt (∑ j : Fin d, A i (j : ℕ) ^ 2)

/-- x / (nrm + eps) with the (n, 1) norm column broadcast along dim 1. -/
def divNormT (eps : ℝ) (A nrm : UTensor) : UTensor :=
  fun i j => A i j / (nrm i 0 + eps)

/-- The elementwise effect of the subscript assignment x[x != x] = 0. -/
def nanFixT (A : UTensor) : UTensor := fun i j => nanToZero (A i j)

/-- torch.mm(x, y.transpose(0, 1)) with inner dimension d. -/
def mmTransposeT (d : ℕ) (A B : UTensor) : UTensor :=
  fun i k => ∑ j : Fin d, A i (j : ℕ) * B k (j : ℕ)

/-- (x + 1.0) / 2.0 elementwise. -/
def rescaleT (A : UTensor) : UTensor := fun i k => (A i k + 1) / 2

/-- x / torch.sum(x, dim=1, keepdim=True) on an (n, n) tensor. -/
def rowProbT (n : ℕ) (A : UTensor) : UTensor :=
  fun i k => A i k / ∑ m : Fin n, A i (m : ℕ)

/-- torch.mean of the elementwise divergence of line 280 on (n, n) tensors. -/
def klMeanT (n : ℕ) (eps : ℝ) (Pt Ps : UTensor) : ℝ :=
  (∑ i : Fin n, ∑ k : Fin n, Pt (i : ℕ) (k : ℕ) *
    Real.log ((Pt (i : ℕ) (k : ℕ) + eps) / (Ps (i : ℕ) (k : ℕ) + eps))) /
    ((n : ℝ) * (n : ℝ))

theorem Heap.alloc_fst_mem_of_lt (h : Heap) (v : UTensor) {r : ℕ}
    (hr : r < h.next) : (h.alloc v).1.mem r = h.mem r := by
  show (if r = h.next then v else h.mem r) = h.mem r
  exact if_neg (by omega)

theorem Heap.alloc_fst_next (h : Heap) (v : UTensor) :
    (h.alloc v).1.next = h.next + 1 := rfl

theorem Heap.alloc_snd_eq (h : Heap) (v : UTensor) : (h.alloc v).2 = h.next :=
  rfl

theorem Heap.store_mem_of_ne (h : Heap) (rT : ℕ) (v : UTensor) {r : ℕ}
    (hne : r ≠ rT) : (h.store rT v).mem r = h.mem r := by
  show (if r = rT then v else h.mem r) = h.mem r
  exact if_neg hne

theorem Heap.store_next (h : Heap) (rT : ℕ) (v : UTensor) :
    (h.store rT v).next = h.next := rfl

/-- Line 259: output_s_norm = torch.sqrt(torch.sum(output_s ** 2, ...)).
The pair is the heap after this line with the reference of the new object. -/
def pktS1 (ds : ℕ) (h0 : Heap) (rs : ℕ) : Heap × ℕ :=
  h0.alloc (rowNormT ds (h0.mem rs))

/-- Line 260: output_s = output_s / (output_s_norm + eps). The local name
output_s is rebound to the freshly allocated quotient tensor. -/
def pktS2 (eps : ℝ) (ds : ℕ) (h0 : Heap) (rs : ℕ) : Heap × ℕ :=
  (pktS1 ds h0 rs).1.alloc (divNormT eps ((pktS1 ds h0 rs).1.mem rs)
    ((pktS1 ds h0 rs).1.mem (pktS1 ds h0 rs).2))

/-- Line 261: output_s[output_s != output_s] = 0, the in-place subscript
assignment, writing to the reference that line 260 bound to output_s. -/
def pktS3 (eps : ℝ) (ds : ℕ) (h0 : Heap) (rs : ℕ) : Heap × ℕ :=
  ((pktS2 eps ds h0 rs).1.store (pktS2 eps ds h0 rs).2
    (nanFixT ((pktS2 eps ds h0 rs).1.mem (pktS2 eps ds h0 rs).2)),
   (pktS2 eps ds h0 rs).2)

/-- Line 263: output_t_norm, as line 259 for the teacher argument. -/
def pktS4 (eps : ℝ) (ds dt : ℕ) (h0 : Heap) (rs rt : ℕ) : Heap × ℕ :=
  (pktS3 eps ds h0 rs).1.alloc (rowNormT dt ((pktS3 eps ds h0 rs).1.mem rt))

/-- Line 264: output_t rebound to the fresh quotient tensor, as line 260. -/
def pktS5 (eps : ℝ) (ds dt : ℕ) (h0 : Heap) (rs rt : ℕ) : Heap × ℕ :=
  (pktS4 eps ds dt h0 rs rt).1.alloc
    (divNormT eps ((pktS4 eps ds dt h0 rs rt).1.mem rt)
      ((pktS4 eps ds dt h0 rs rt).1.mem (pktS4 eps ds dt h0 rs rt).2))

/-- Line 265: the in-place NaN fix on the tensor now bound to output_t. -/
def pktS6 (eps : ℝ) (ds dt : ℕ) (h0 : Heap) (rs rt : ℕ) : Heap :=
  (pktS5 eps ds dt h0 rs rt).1.store (pktS5 eps ds dt h0 rs rt).2
    (nanFixT ((pktS5 eps ds dt h0 rs rt).1.mem (pktS5 eps ds dt h0 rs rt).2))

/-- Line 268: output_s_cos_sim = torch.mm(output_s, output_s.transpose(0,1)),
reading the tensor that line 260 bound to output_s. -/
def pktS7 (eps : ℝ) (ds dt : ℕ) (h0 : Heap) (rs rt : ℕ) : Heap × ℕ :=
  (pktS6 eps ds dt h0 rs rt).alloc
    (mmTransposeT ds ((pktS6 eps ds dt h0 rs rt).mem (pktS3 eps ds h0 rs).2)
      ((pktS6 eps ds dt h0 rs rt).mem (pktS3 eps ds h0 rs).2))

/-- Line 269: output_t_cos_sim, reading the tensor bound to output_t. -/
def pktS8 (eps : ℝ) (ds dt : ℕ) (h0 : Heap) (rs rt : ℕ) : Heap × ℕ :=
  (pktS7 eps ds dt h0 rs rt).1.alloc
    (mmTransposeT dt
      ((pktS7 eps ds dt h0 rs rt).1.mem (pktS5 eps ds dt h0 rs rt).2)
      ((pktS7 eps ds dt h0 rs rt).1.mem (pktS5 eps ds dt h0 rs rt).2))

/-- Line 272: output_s_cos_sim rebound to (output_s_cos_sim + 1.0) / 2.0. -/
def pktS9 (eps : ℝ) (ds dt : ℕ) (h0 : Heap) (rs rt : ℕ) : Heap × ℕ :=
  (pktS8 eps ds dt h0 rs rt).1.alloc
    (rescaleT ((pktS8 eps ds dt h0 rs rt).1.mem (pktS7 eps ds dt h0 rs rt).2))

/-- Line 273: output_t_cos_sim rebound to its rescale. -/
def pktS10 (eps : ℝ) (ds dt : ℕ) (h0 : Heap) (rs rt : ℕ) : Heap × ℕ :=
  (pktS9 eps ds dt h0 rs rt).1.alloc
    (rescaleT ((pktS9 eps ds dt h0 rs rt).1.mem (pktS8 eps ds dt h0 rs rt).2))

/-- Line 276: output_s_cond_prob, the row normalization of the student. -/
def pktS11 (n : ℕ) (eps : ℝ) (ds dt : ℕ) (h0 : Heap) (rs rt : ℕ) : Heap × ℕ :=
  (pktS10 eps ds dt h0 rs rt).1.alloc
    (rowProbT n ((pktS10 eps ds dt h0 rs rt).1.mem (pktS9 eps ds dt h0 rs rt).2))

/-- Line 277: output_t_cond_prob, the row normalization of the teacher. -/
def pktS12 (n : ℕ) (eps : ℝ) (ds dt : ℕ) (h0 : Heap) (rs rt : ℕ) : Heap × ℕ :=
  (pktS11 n eps ds dt h0 rs rt).1.alloc
    (rowProbT n
      ((pktS11 n eps ds dt h0 rs rt).1.mem (pktS10 eps ds dt h0 rs rt).2))

/-- Heap-level embedding of the whole body of pkt_cosine_similarity_loss
(lines 257-282): the twelve tensor statements in source order followed by
the loss value of line 280, starting from a heap in which the arguments
output_s and output_t are the references rs and rt. -/
def pktProgram (n ds dt : ℕ) (eps : ℝ) (h0 : Heap) (rs rt : ℕ) : Heap × ℝ :=
  ((pktS12 n eps ds dt h0 rs rt).1,
   klMeanT n eps
     ((pktS12 n eps ds dt h0 rs rt).1.mem (pktS12 n eps ds dt h0 rs rt).2)
     ((pktS12 n eps ds dt h0 rs rt).1.mem (pktS11 n eps ds dt h0 rs rt).2))

theorem pktS1_spec (ds : ℕ) (h0 : Heap) (rs : ℕ) :
    (∀ r, r < h0.next → (pktS1 ds h0 rs).1.mem r = h0.mem r) ∧
    h0.next < (pktS1 ds h0 rs).1.next ∧ h0.next ≤ (pktS1 ds h0 rs).2 := by
  unfold pktS1
  refine ⟨fun r hr => Heap.alloc_fst_mem_of_lt _ _ hr, ?_, ?_⟩
  · rw [Heap.alloc_fst_next]; omega
  · rw [Heap.alloc_snd_eq]

theorem pktS2_spec (eps : ℝ) (ds : ℕ) (h0 : Heap) (rs : ℕ) :
    (∀ r, r < h0.next → (pktS2 eps ds h0 rs).1.mem r = h0.mem r) ∧
    h0.next < (pktS2 eps ds h0 rs).1.next ∧ h0.next ≤ (pktS2 eps ds h0 rs).2 := by
  obtain ⟨hm, hn, _⟩ := pktS1_spec ds h0 rs
  unfold pktS2
  refine ⟨fun r hr => (Heap.alloc_fst_mem_of_lt _ _ (by omega)).trans (hm r hr), ?_, ?_⟩
  · rw [Heap.alloc_fst_next]; omega
  · rw [Heap.alloc_snd_eq]; omega

theorem pktS3_spec (eps : ℝ) (ds : ℕ) (h0 : Heap) (rs : ℕ) :
    (∀ r, r < h0.next → (pktS3 eps ds h0 rs).1.mem r = h0.mem r) ∧
    h0.next < (pktS3 eps ds h0 rs).1.next := by
  obtain ⟨hm, hn, hb⟩ := pktS2_spec eps ds h0 rs
  unfold pktS3
  refine ⟨fun r hr => (Heap.store_mem_of_ne _ _ _ (by omega)).trans (hm r hr), ?_⟩
  rw [Heap.store_next]; omega

theorem pktS4_spec (eps : ℝ) (ds dt : ℕ) (h0 : Heap) (rs rt : ℕ) :
    (∀ r, r < h0.next → (pktS4 eps ds dt h0 rs rt).1.mem r = h0.mem r) ∧
    h0.next < (pktS4 eps ds dt h0 rs rt).1.next ∧
    h0.next ≤ (pktS4 eps ds dt h0 rs rt).2 := by
  obtain ⟨hm, hn⟩ := pktS3_spec eps ds h0 rs
  unfold pktS4
  refine ⟨fun r hr => (Heap.alloc_fst_mem_of_lt _ _ (by omega)).trans (hm r hr), ?_, ?_⟩
  · rw [Heap.alloc_fst_next]; omega
  · rw [Heap.alloc_snd_eq]; omega

theorem pktS5_spec (eps : ℝ) (ds dt : ℕ) (h0 : Heap) (rs rt : ℕ) :
    (∀ r, r < h0.next → (pktS5 eps ds dt h0 rs rt).1.mem r = h0.mem r) ∧
    h0.next < (pktS5 eps ds dt h0 rs rt).1.next ∧
    h0.next ≤ (pktS5 eps ds dt h0 rs rt).2 := by
  obtain ⟨hm, hn, _⟩ := pktS4_spec eps ds dt h0 rs rt
  unfold pktS5
  refine ⟨fun r hr => (Heap.alloc_fst_mem_of_lt _ _ (by omega)).trans (hm r hr), ?_, ?_⟩
  · rw [Heap.alloc_fst_next]; omega
  · rw [Heap.alloc_snd_eq]; omega

theorem pktS6_spec (eps : ℝ) (ds dt : ℕ) (h0 : Heap) (rs rt : ℕ) :
    (∀ r, r < h0.next → (pktS6 eps ds dt h0 rs rt).mem r = h0.mem r) ∧
    h0.next < (pktS6 eps ds dt h0 rs rt).next := by
  obtain ⟨hm, hn, hb⟩ := pktS5_spec eps ds dt h0 rs rt
  unfold pktS6
  refine ⟨fun r hr => (Heap.store_mem_of_ne _ _ _ (by omega)).trans (hm r hr), ?_⟩
  rw [Heap.store_next]; omega

theorem pktS7_spec (eps : ℝ) (ds dt : ℕ) (h0 : Heap) (rs rt : ℕ) :
    (∀ r, r < h0.next → (pktS7 eps ds dt h0 rs rt).1.mem r = h0.mem r) ∧
    h0.next < (pktS7 eps ds dt h0 rs rt).1.next := by
  obtain ⟨hm, hn⟩ := pktS6_spec eps ds dt h0 rs rt
  unfold pktS7
  refine ⟨fun r hr => (Heap.alloc_fst_mem_of_lt _ _ (by omega)).trans (hm r hr), ?_⟩
  rw [Heap.alloc_fst_next]; omega

theorem pktS8_spec (eps : ℝ) (ds dt : ℕ) (h0 : Heap) (rs rt : ℕ) :
    (∀ r, r < h0.next → (pktS8 eps ds dt h0 rs rt).1.mem r = h0.mem r) ∧
    h0.next < (pktS8 eps ds dt h0 rs rt).1.next := by
  obtain ⟨hm, hn⟩ := pktS7_spec eps ds dt h0 rs rt
  unfold pktS8
  refine ⟨fun r hr => (Heap.alloc_fst_mem_of_lt _ _ (by omega)).trans (hm r hr), ?_⟩
  rw [Heap.alloc_fst_next]; omega

theorem pktS9_spec (eps : ℝ) (ds dt : ℕ) (h0 : Heap) (rs rt : ℕ) :
    (∀ r, r < h0.next → (pktS9 eps ds dt h0 rs rt).1.mem r = h0.mem r) ∧
    h0.next < (pktS9 eps ds dt h0 rs rt).1.next := by
  obtain ⟨hm, hn⟩ := pktS8_spec eps ds dt h0 rs rt
  unfold pktS9
  refine ⟨fun r hr => (Heap.alloc_fst_mem_of_lt _ _ (by omega)).trans (hm r hr), ?_⟩
  rw [Heap.alloc_fst_next]; omega

theorem pktS10_spec (eps : ℝ) (ds dt : ℕ) (h0 : Heap) (rs rt : ℕ) :
    (∀ r, r < h0.next → (pktS10 eps ds dt h0 rs rt).1.mem r = h0.mem r) ∧
    h0.next < (pktS10 eps ds dt h0 rs rt).1.next := by
  obtain ⟨hm, hn⟩ := pktS9_spec eps ds dt h0 rs rt
  unfold pktS10
  refine ⟨fun r hr => (Heap.alloc_fst_mem_of_lt _ _ (by omega)).trans (hm r hr), ?_⟩
  rw [Heap.alloc_fst_next]; omega

theorem pktS11_spec (n : ℕ) (eps : ℝ) (ds dt : ℕ) (h0 : Heap) (rs rt : ℕ) :
    (∀ r, r < h0.next → (pktS11 n eps ds dt h0 rs rt).1.mem r = h0.mem r) ∧
    h0.next < (pktS11 n eps ds dt h0 rs rt).1.next := by
  obtain ⟨hm, hn⟩ := pktS10_spec eps ds dt h0 rs rt
  unfold pktS11
  refine ⟨fun r hr => (Heap.alloc_fst_mem_of_lt _ _ (by omega)).trans (hm r hr), ?_⟩
  rw [Heap.alloc_fst_next]; omega

theorem pktS12_spec (n : ℕ) (eps : ℝ) (ds dt : ℕ) (h0 : Heap) (rs rt : ℕ) :
    (∀ r, r < h0.next → (pktS12 n eps ds dt h0 rs rt).1.mem r = h0.mem r) ∧
    h0.next < (pktS12 n eps ds dt h0 rs rt).1.next := by
  obtain ⟨hm, hn⟩ := pktS11_spec n eps ds dt h0 rs rt
  unfold pktS12
  refine ⟨fun r hr => (Heap.alloc_fst_mem_of_lt _ _ (by omega)).trans (hm r hr), ?_⟩
  rw [Heap.alloc_fst_next]; omega

/-- C9: pkt_cosine_similarity_loss leaves both argument tensors unchanged as
seen by the caller: for every heap and valid argument references, after the
whole body has run, the objects at the argument references hold exactly
their initial values. The divisions of lines 260 and 264 rebind the local
names to fresh tensors, so the in-place NaN-replacement writes of lines 261
and 265 never touch the caller embeddings. -/
theorem pkt_loss_preserves_arguments (n ds dt : ℕ) (eps : ℝ) (h0 : Heap)
    (rs rt : ℕ) (hs : rs < h0.next) (ht : rt < h0.next) :
    (pktProgram n ds dt eps h0 rs rt).1.mem rs = h0.mem rs ∧
    (pktProgram n ds dt eps h0 rs rt).1.mem rt = h0.mem rt := by
  obtain ⟨hm, _⟩ := pktS12_spec n eps ds dt h0 rs rt
  exact ⟨hm rs hs, hm rt ht⟩

/-- Witness for C9: a two-object heap holding zero tensors, the student
argument at reference 0 and the teacher argument at reference 1. -/
theorem pkt_loss_preserves_arguments_witness :
    (pktProgram 2 3 4 (1e-5) ⟨fun _ => fun _ _ => (0:ℝ), 2⟩ 0 1).1.mem 0
        = (⟨fun _ => fun _ _ => (0:ℝ), 2⟩ : Heap).mem 0 ∧
    (pktProgram 2 3 4 (1e-5) ⟨fun _ => fun _ _ => (0:ℝ), 2⟩ 0 1).1.mem 1
        = (⟨fun _ => fun _ _ => (0:ℝ), 2⟩ : Heap).mem 1 :=
  pkt_loss_preserves_arguments 2 3 4 (1e-5) ⟨fun _ => fun _ _ => (0:ℝ), 2⟩ 0 1
    (by decide) (by decide)

end

end PKT
